import Mathlib

/-!
Shallow embedding of the turn-based match-3 controller from `src/src/main.rs`
(Sheepyhead/puzzle_quest_3).

Modelling conventions:
* `u32` board coordinates are `Nat` with explicit saturation at `u32max`
  (`saturating_sub` is `Nat` truncated subtraction, `saturating_add` clamps).
* bevy `Entity` identifiers are `Nat`.
* `bevy::utils::HashMap` is modelled as an association list with unique keys:
  `alistGet` is `get`, `alistInsert` is `insert` (replace the existing entry
  or append a fresh one).
* Fallible Rust code (`unwrap` on lookups, `unimplemented!`, `State::set`
  returning `Err` when the target state equals the current one,
  `fastrand::usize(..0)` on an empty range) is modelled with `Option`:
  `none` is a panic.
* `f32` animation progress values are modelled as `ℚ`; the concrete values
  used below (`0`, `1`, `1 - 2⁻²⁴`) and the subtractions and comparisons on
  them are exactly representable/exact in `f32`, so the `ℚ` model agrees
  with the `f32` computation at every point where it is evaluated.
* ECS state mutated by a system is passed in and returned explicitly; each
  Rust system function becomes a Lean function of the resources it reads
  and writes.
-/

/-- `u32::MAX`. -/
def u32max : Nat := 4294967295

/-- The eight gem kinds of `enum GemType` in declaration order
(`Ruby = 0 … Equipment = 7`). -/
inductive GemType
  | Ruby
  | Emerald
  | Sapphire
  | Topaz
  | Diamond
  | Amethyst
  | Skull
  | Equipment
deriving DecidableEq

/-- `impl From<u8> for GemType`: `GemType::iter().enumerate().find(|(i, _)| *i == val)`;
the `unwrap` panics for values ≥ 8, hence `Option`. -/
def gemTypeOf (val : Nat) : Option GemType :=
  match val with
  | 0 => some GemType.Ruby
  | 1 => some GemType.Emerald
  | 2 => some GemType.Sapphire
  | 3 => some GemType.Topaz
  | 4 => some GemType.Diamond
  | 5 => some GemType.Amethyst
  | 6 => some GemType.Skull
  | 7 => some GemType.Equipment
  | _ => none

/-- `bevy::math::UVec2`, restricted to the two `u32` fields the program uses. -/
structure UVec2 where
  x : Nat
  y : Nat
deriving DecidableEq

namespace UVec2

/-- `self.x.saturating_sub(1)` (`Nat` subtraction already saturates at 0). -/
def left (p : UVec2) : UVec2 := ⟨p.x - 1, p.y⟩

/-- `self.x.saturating_add(1)` clamped at `u32::MAX`. -/
def right (p : UVec2) : UVec2 := ⟨min (p.x + 1) u32max, p.y⟩

/-- `self.y.saturating_sub(1)`. -/
def up (p : UVec2) : UVec2 := ⟨p.x, p.y - 1⟩

/-- `self.y.saturating_add(1)` clamped at `u32::MAX`. -/
def down (p : UVec2) : UVec2 := ⟨p.x, min (p.y + 1) u32max⟩

/-- `BoardPosition::cardinally_adjacent` from `impl BoardPosition for UVec2`. -/
def cardinally_adjacent (p q : UVec2) : Bool :=
  p == q.left || p == q.right || p == q.up || p == q.down

end UVec2

/-- bevy `Entity` identifiers. -/
abbrev Entity := Nat

/-- Association-list model of `bevy::utils::HashMap` lookup / ECS `Query::get`. -/
def alistGet {α β : Type} [BEq α] : List (α × β) → α → Option β
  | [], _ => none
  | p :: rest, k => if p.1 == k then some p.2 else alistGet rest k

/-- Association-list model of `HashMap::insert`: replace the existing entry for
the key, or append a fresh entry. -/
def alistInsert {α β : Type} [BEq α] : List (α × β) → α → β → List (α × β)
  | [], k, v => [(k, v)]
  | p :: rest, k, v => if p.1 == k then (k, v) :: rest else p :: alistInsert rest k v

theorem alistGet_insert_self {α β : Type} [BEq α] [LawfulBEq α]
    (l : List (α × β)) (k : α) (v : β) : alistGet (alistInsert l k v) k = some v := by
  induction l with
  | nil => simp [alistGet, alistInsert]
  | cons p rest ih =>
    by_cases h : p.1 = k
    · simp [alistGet, alistInsert, h]
    · simp [alistGet, alistInsert, h, ih]

theorem alistGet_insert_other {α β : Type} [BEq α] [LawfulBEq α]
    (l : List (α × β)) (k k2 : α) (v : β) (h : k2 ≠ k) :
    alistGet (alistInsert l k v) k2 = alistGet l k2 := by
  have hk : ¬k = k2 := fun hh => h hh.symm
  induction l with
  | nil => simp [alistGet, alistInsert, hk]
  | cons p rest ih =>
    by_cases hp : p.1 = k
    · subst hp
      simp [alistGet, alistInsert, hk]
    · have hb : (p.1 == k) = false := by simp [hp]
      simp only [alistInsert, hb]
      by_cases hp2 : p.1 = k2 <;> simp [alistGet, hp2, ih]

theorem alistGet_filter_out {α β : Type} [BEq α] [LawfulBEq α]
    (l : List (α × β)) (k : α) :
    alistGet (l.filter (fun p => !(p.1 == k))) k = none := by
  induction l with
  | nil => simp [alistGet]
  | cons p rest ih =>
    by_cases h : p.1 = k
    · have hb : (!(p.1 == k)) = false := by simp [h]
      simpa [List.filter_cons, hb] using ih
    · have hb : (!(p.1 == k)) = true := by simp [h]
      simpa [List.filter_cons, hb, alistGet, h] using ih

/-- `struct Resources { mana: HashMap<GemType, u32> }`. -/
structure Resources where
  mana : List (GemType × Nat)
deriving DecidableEq

namespace Resources

/-- `self.mana.get(&typ).copied().unwrap_or_default()`. -/
def get (r : Resources) (t : GemType) : Nat := (alistGet r.mana t).getD 0

/-- `Resources::add`: skulls are ignored, any other type is credited one unit. -/
def add (r : Resources) (t : GemType) : Resources :=
  if t == GemType.Skull then r
  else ⟨alistInsert r.mana t (r.get t + 1)⟩

/-- `Resources::pay`: `unimplemented!` (a panic, modelled as `none`) on skulls;
otherwise debit `amount` if the balance suffices, returning whether it did. -/
def pay (r : Resources) (t : GemType) (amount : Nat) : Option (Resources × Bool) :=
  if t == GemType.Skull then none
  else
    let mana := r.get t
    if mana ≥ amount then some (⟨alistInsert r.mana t (mana - amount)⟩, true)
    else some (r, false)

/-- `Resources::clear`. -/
def clear (_ : Resources) : Resources := ⟨[]⟩

end Resources

theorem resources_get_add_self (r : Resources) (t : GemType) (h : t ≠ GemType.Skull) :
    (r.add t).get t = r.get t + 1 := by
  simp [Resources.add, Resources.get, h, alistGet_insert_self]

theorem resources_get_add_other (r : Resources) (t t2 : GemType) (h : t2 ≠ t) :
    (r.add t).get t2 = r.get t2 := by
  by_cases hs : t = GemType.Skull
  · simp [Resources.add, hs]
  · simp [Resources.add, Resources.get, hs, alistGet_insert_other _ _ _ _ h]

/-- C4 helper: the two-state machine of `enum TurnState`. -/
inductive TurnState
  | AwaitingMove
  | Resolving
deriving DecidableEq

/-- bevy `State::set` returns `Err(AlreadyInState)` when the target equals the
current state, and every call site immediately `unwrap`s it; modelled as an
`Option` of the new state. -/
def stateSet (cur new : TurnState) : Option TurnState :=
  if cur == new then none else some new

/-- The two participants: the entity spawned with the `Player` marker and the
opponent entity (`Query<… , Without<Player>>`); `Turn` holds one of them. -/
inductive Participant
  | Player
  | Opponent
deriving DecidableEq

/-- `if **turn == player { **turn = opponent } else { **turn = player }`. -/
def flipTurn : Participant → Participant
  | Participant.Player => Participant.Opponent
  | Participant.Opponent => Participant.Player

/-- The commands the controller pushes to the `bevy_match3` board. -/
inductive BoardCommand
  | Swap (a b : UVec2)
  | Pop (positions : List UVec2)
  | Shuffle
deriving DecidableEq

/-- `struct GemSlot { pos: UVec2, gem: Option<Entity> }`. -/
structure GemSlot where
  pos : UVec2
  gem : Option Entity
deriving DecidableEq

/-- `BoardEvent` variants consumed by `gem_events`. -/
inductive BoardEvent
  | Swapped (from_ to_ : UVec2)
  | FailedSwap (from_ to_ : UVec2)
  | Dropped (drops : List (UVec2 × UVec2))
  | Popped (pos : UVec2)
  | Spawned (spawns : List (UVec2 × Nat))
  | Matched (positions : List UVec2)
  | Shuffled (moves : List (UVec2 × UVec2))
deriving DecidableEq

/-- `fn approx_equal(a, b)`: `(a - b).abs() < f32::EPSILON`. -/
def f32Eps : ℚ := 1 / 2 ^ 23

/-- `approx_equal` from `main.rs` (progress comparisons). -/
def approx_equal (a b : ℚ) : Bool := decide (|a - b| < f32Eps)

/-- The mutable state `gem_events` works on: the slot table, the gem
entities (with their `GemType` component), the `Turn` and `TurnState`
resources, the two `Local` flags, both participants' `Resources`, the
commands pushed to the board, and the entity allocator for `spawn_gem`. -/
structure DrainState where
  slots : List GemSlot
  gems : List (Entity × GemType)
  turn : Participant
  turnState : TurnState
  endOfSequence : Bool
  changeTurns : Bool
  playerRes : Resources
  opponentRes : Resources
  commands : List BoardCommand
  nextEntity : Entity
deriving DecidableEq

/-- The ledger of a participant (`player.single()` / `opponent.single()`). -/
def ledgerOf (s : DrainState) : Participant → Resources
  | Participant.Player => s.playerRes
  | Participant.Opponent => s.opponentRes

/-- `slots.iter().find(|slot| slot.pos == pos)` (first match). -/
def getSlot : List GemSlot → UVec2 → Option GemSlot
  | [], _ => none
  | sl :: rest, pos => if sl.pos == pos then some sl else getSlot rest pos

/-- `fn get_gem_from_pos`: slot lookup then `gem.unwrap()`. -/
def get_gem_from_pos (pos : UVec2) (slots : List GemSlot) : Option Entity :=
  (getSlot slots pos).bind GemSlot.gem

/-- `fn swap_gems_in_slots`: `slots.for_each_mut` assigning `slot2.gem` to
every slot at `slot1.pos` and `slot1.gem` to every slot at `slot2.pos`. -/
def swap_gems_in_slots (slot1 slot2 : GemSlot) (slots : List GemSlot) : List GemSlot :=
  slots.map (fun sl =>
    if sl.pos == slot1.pos then { sl with gem := slot2.gem }
    else if sl.pos == slot2.pos then { sl with gem := slot1.gem }
    else sl)

/-- `slots.iter_mut().find(|slot| slot.pos == pos)` followed by a write of the
found slot's `gem` field (only the first matching slot is mutated). -/
def setGemFirst : List GemSlot → UVec2 → Option Entity → List GemSlot
  | [], _, _ => []
  | sl :: rest, pos, g =>
    if sl.pos == pos then { sl with gem := g } :: rest
    else sl :: setGemFirst rest pos g

/-- The `BoardEvent::Dropped` arm: for each `Drop { from, to }`, look up the
from-gem (`unwrap`) and the to-slot (`unwrap`), swap the two slots' gems, and
read the from-gem's `Transform` (`unwrap`) for the tween. -/
def applyDrops : DrainState → List (UVec2 × UVec2) → Option DrainState
  | s, [] => some s
  | s, d :: rest =>
    match get_gem_from_pos d.1 s.slots with
    | none => none
    | some from_gem =>
      match getSlot s.slots d.2 with
      | none => none
      | some to_slot =>
        match alistGet s.gems from_gem with
        | none => none
        | some _ =>
          applyDrops
            { s with slots := swap_gems_in_slots ⟨d.1, some from_gem⟩ to_slot s.slots }
            rest

/-- The `BoardEvent::Spawned` arm: for each `(pos, typ)`, convert the raw type
(`typ as u8` then `GemType::from`, which panics above 7), find the slot
(`unwrap`), spawn a fresh gem entity and store it in the slot. -/
def applySpawns : DrainState → List (UVec2 × Nat) → Option DrainState
  | s, [] => some s
  | s, sp :: rest =>
    match gemTypeOf (sp.2 % 256) with
    | none => none
    | some typ =>
      match getSlot s.slots sp.1 with
      | none => none
      | some _ =>
        applySpawns
          { s with
            gems := s.gems ++ [(s.nextEntity, typ)]
            slots := setGemFirst s.slots sp.1 (some s.nextEntity)
            nextEntity := s.nextEntity + 1 }
          rest

/-- The `BoardEvent::Shuffled` arm's first loop: build the `new_slots` HashMap.
For each `(from, to)`: `old_slots.get(&from).unwrap()`, `old_slots.get(&to).unwrap()`,
insert `to ↦ from_slot.gem`, and when both slots hold gems read both gems'
`Transform`s (`unwrap`) for the tween. -/
def buildShuffleMap (old : List GemSlot) (gems : List (Entity × GemType)) :
    List (UVec2 × UVec2) → List (UVec2 × Option Entity) →
    Option (List (UVec2 × Option Entity))
  | [], acc => some acc
  | mv :: rest, acc =>
    match getSlot old mv.1 with
    | none => none
    | some from_slot =>
      match getSlot old mv.2 with
      | none => none
      | some to_slot =>
        match from_slot.gem, to_slot.gem with
        | some from_gem, some to_gem =>
          match alistGet gems from_gem, alistGet gems to_gem with
          | some _, some _ => buildShuffleMap old gems rest (alistInsert acc mv.2 from_slot.gem)
          | _, _ => none
        | _, _ => buildShuffleMap old gems rest (alistInsert acc mv.2 from_slot.gem)

/-- The `match event` dispatch inside the `while let Ok(event) = events.pop()`
loop body of `gem_events`. -/
def applyEvent (s : DrainState) (ev : BoardEvent) : Option DrainState :=
  match ev with
  | BoardEvent.Swapped from_ to_ =>
    match get_gem_from_pos from_ s.slots, get_gem_from_pos to_ s.slots with
    | some from_gem, some to_gem =>
      match alistGet s.gems from_gem, alistGet s.gems to_gem with
      | some _, some _ =>
        some { s with
          slots := swap_gems_in_slots ⟨from_, some from_gem⟩ ⟨to_, some to_gem⟩ s.slots
          changeTurns := true }
      | _, _ => none
    | _, _ => none
  | BoardEvent.FailedSwap from_ to_ =>
    match get_gem_from_pos from_ s.slots, get_gem_from_pos to_ s.slots with
    | some from_gem, some to_gem =>
      match alistGet s.gems from_gem, alistGet s.gems to_gem with
      | some _, some _ =>
        match stateSet s.turnState TurnState.AwaitingMove with
        | some ts => some { s with turnState := ts }
        | none => none
      | _, _ => none
    | _, _ => none
  | BoardEvent.Dropped drops => applyDrops s drops
  | BoardEvent.Popped pop =>
    match getSlot s.slots pop with
    | none => none
    | some slot =>
      match slot.gem with
      | none => none
      | some gem =>
        match alistGet s.gems gem with
        | none => none
        | some typ =>
          let s2 : DrainState :=
            match s.turn with
            | Participant.Player => { s with playerRes := s.playerRes.add typ }
            | Participant.Opponent => { s with opponentRes := s.opponentRes.add typ }
          some { s2 with
            gems := s2.gems.filter (fun p => !(p.1 == gem))
            slots := setGemFirst s2.slots pop none }
  | BoardEvent.Spawned spawns =>
    match applySpawns s spawns with
    | none => none
    | some s2 => some { s2 with endOfSequence := true }
  | BoardEvent.Matched positions =>
    some { s with commands := s.commands ++ [BoardCommand.Pop positions.eraseDups] }
  | BoardEvent.Shuffled moves =>
    match buildShuffleMap s.slots s.gems moves [] with
    | none => none
    | some nm =>
      some { s with
        slots := s.slots.map (fun sl => { sl with gem := (alistGet nm sl.pos).join })
        endOfSequence := true }

/-- One iteration of the `while let Ok(event) = events.pop()` loop body of
`gem_events`: `*end_of_sequence = false;` then the `match event` dispatch. -/
def processEvent (s0 : DrainState) (ev : BoardEvent) : Option DrainState :=
  applyEvent { s0 with endOfSequence := false } ev

/-- The full `while let Ok(event) = events.pop()` loop. -/
def drainLoop : DrainState → List BoardEvent → Option DrainState
  | s, [] => some s
  | s, ev :: rest =>
    match processEvent s ev with
    | none => none
    | some s2 => drainLoop s2 rest

/-- The `if *end_of_sequence` block at the end of `gem_events`: reset
`TurnState` to `AwaitingMove` (the `unwrap` panics when it already is), clear
the flag, and if `change_turns_at_end_of_sequence` is set, clear it and hand
`Turn` to the other participant. -/
def finishSequence (s : DrainState) : Option DrainState :=
  if s.endOfSequence then
    match stateSet s.turnState TurnState.AwaitingMove with
    | none => none
    | some ts =>
      if s.changeTurns then
        some { s with
          turnState := ts
          endOfSequence := false
          changeTurns := false
          turn := flipTurn s.turn }
      else some { s with turnState := ts, endOfSequence := false }
  else some s

/-- The whole `gem_events` system for one tick. `animProgress` lists the
progress of every `Animator<Transform>` currently attached to a gem; if any of
them is not approximately 1.0 the system returns before reading any event.
Otherwise it drains the whole event queue and runs the end-of-sequence block.
The result pairs the new state with the remaining event queue. -/
def gem_events (animProgress : List ℚ) (s : DrainState) (events : List BoardEvent) :
    Option (DrainState × List BoardEvent) :=
  if animProgress.all (fun p => approx_equal p 1) then
    match drainLoop s events with
    | none => none
    | some s2 =>
      match finishSequence s2 with
      | none => none
      | some s3 => some (s3, [])
  else some (s, events)


theorem applyDrops_fields : ∀ (ds : List (UVec2 × UVec2)) (s s2 : DrainState),
    applyDrops s ds = some s2 →
    s2.turn = s.turn ∧ s2.turnState = s.turnState ∧
    s2.endOfSequence = s.endOfSequence ∧ s2.changeTurns = s.changeTurns := by
  intro ds
  induction ds with
  | nil =>
    intro s s2 h
    simp only [applyDrops, Option.some.injEq] at h
    subst h
    exact ⟨rfl, rfl, rfl, rfl⟩
  | cons d rest ih =>
    intro s s2 h
    simp only [applyDrops] at h
    split at h
    · cases h
    · split at h
      · cases h
      · split at h
        · cases h
        · have h4 := ih _ _ h
          exact h4

theorem applySpawns_fields : ∀ (sp : List (UVec2 × Nat)) (s s2 : DrainState),
    applySpawns s sp = some s2 →
    s2.turn = s.turn ∧ s2.turnState = s.turnState ∧
    s2.endOfSequence = s.endOfSequence ∧ s2.changeTurns = s.changeTurns := by
  intro sp
  induction sp with
  | nil =>
    intro s s2 h
    simp only [applySpawns, Option.some.injEq] at h
    subst h
    exact ⟨rfl, rfl, rfl, rfl⟩
  | cons d rest ih =>
    intro s s2 h
    simp only [applySpawns] at h
    split at h
    · cases h
    · split at h
      · cases h
      · have h4 := ih _ _ h
        exact h4

theorem applyEvent_turn (s : DrainState) (ev : BoardEvent) (s2 : DrainState)
    (h : applyEvent s ev = some s2) : s2.turn = s.turn := by
  obtain ⟨sl, gs, tn, ts, eo, ct, pr, op, cs, ne⟩ := s
  cases ev
  case Dropped drops =>
    simp only [applyEvent] at h
    have h4 := applyDrops_fields drops _ s2 h
    exact h4.1
  case Spawned spawns =>
    simp only [applyEvent] at h
    split at h
    · cases h
    · rename_i s3 hs3
      cases h
      have h4 := applySpawns_fields spawns _ s3 hs3
      exact h4.1
  all_goals
    (cases tn <;>
      (simp only [applyEvent] at h
       iterate 5 (all_goals try split at h)
       all_goals try cases h
       all_goals rfl))

theorem applyEvent_end (s : DrainState) (ev : BoardEvent) (s2 : DrainState)
    (h : applyEvent s ev = some s2) (he : s2.endOfSequence = true) :
    s.endOfSequence = true ∨
      (∃ l, ev = BoardEvent.Spawned l) ∨ ∃ m, ev = BoardEvent.Shuffled m := by
  cases ev
  case Spawned spawns => exact Or.inr (Or.inl ⟨spawns, rfl⟩)
  case Shuffled moves => exact Or.inr (Or.inr ⟨moves, rfl⟩)
  case Dropped drops =>
    left
    simp only [applyEvent] at h
    rw [← (applyDrops_fields drops s s2 h).2.2.1]
    exact he
  all_goals
    (obtain ⟨sl, gs, tn, ts, eo, ct, pr, op, cs, ne⟩ := s
     cases tn <;>
       (simp only [applyEvent] at h
        iterate 5 (all_goals try split at h)
        all_goals try cases h
        all_goals exact Or.inl he))

theorem applyEvent_change (s : DrainState) (ev : BoardEvent) (s2 : DrainState)
    (h : applyEvent s ev = some s2) (hc : s2.changeTurns = true) :
    s.changeTurns = true ∨ ∃ a b, ev = BoardEvent.Swapped a b := by
  cases ev
  case Swapped a b => exact Or.inr ⟨a, b, rfl⟩
  case Dropped drops =>
    left
    simp only [applyEvent] at h
    rw [← (applyDrops_fields drops s s2 h).2.2.2]
    exact hc
  case Spawned spawns =>
    left
    simp only [applyEvent] at h
    split at h
    · cases h
    · rename_i s3 hs3
      cases h
      rw [← (applySpawns_fields spawns _ s3 hs3).2.2.2]
      exact hc
  all_goals
    (obtain ⟨sl, gs, tn, ts, eo, ct, pr, op, cs, ne⟩ := s
     cases tn <;>
       (simp only [applyEvent] at h
        iterate 5 (all_goals try split at h)
        all_goals try cases h
        all_goals exact Or.inl hc))

theorem processEvent_turn (s : DrainState) (ev : BoardEvent) (s2 : DrainState)
    (h : processEvent s ev = some s2) : s2.turn = s.turn :=
  applyEvent_turn { s with endOfSequence := false } ev s2 h

theorem processEvent_end (s : DrainState) (ev : BoardEvent) (s2 : DrainState)
    (h : processEvent s ev = some s2) (he : s2.endOfSequence = true) :
    (∃ l, ev = BoardEvent.Spawned l) ∨ ∃ m, ev = BoardEvent.Shuffled m := by
  rcases applyEvent_end { s with endOfSequence := false } ev s2 h he with h0 | h1
  · exact Bool.noConfusion h0
  · exact h1

theorem processEvent_change (s : DrainState) (ev : BoardEvent) (s2 : DrainState)
    (h : processEvent s ev = some s2) (hc : s2.changeTurns = true) :
    s.changeTurns = true ∨ ∃ a b, ev = BoardEvent.Swapped a b :=
  applyEvent_change { s with endOfSequence := false } ev s2 h hc

theorem drainLoop_turn : ∀ (events : List BoardEvent) (s s2 : DrainState),
    drainLoop s events = some s2 → s2.turn = s.turn := by
  intro events
  induction events with
  | nil =>
    intro s s2 h
    simp only [drainLoop, Option.some.injEq] at h
    subst h
    rfl
  | cons ev rest ih =>
    intro s s2 h
    simp only [drainLoop] at h
    split at h
    · cases h
    · rename_i s3 hs3
      exact (ih _ _ h).trans (processEvent_turn _ _ _ hs3)

theorem finishSequence_turn (s s2 : DrainState) (h : finishSequence s = some s2) :
    (s2.turn ≠ s.turn ↔ (s.endOfSequence = true ∧ s.changeTurns = true)) ∧
    (s.endOfSequence = true ∧ s.changeTurns = true →
      s2.turn = flipTurn s.turn ∧ s2.changeTurns = false ∧ s2.endOfSequence = false) := by
  unfold finishSequence at h
  by_cases he : s.endOfSequence = true
  · rw [if_pos he] at h
    split at h
    · cases h
    · by_cases hc : s.changeTurns = true
      · rw [if_pos hc] at h
        cases h
        refine ⟨⟨fun _ => ⟨he, hc⟩, fun _ => ?_⟩, fun _ => ⟨rfl, rfl, rfl⟩⟩
        show flipTurn s.turn ≠ s.turn
        cases hx : s.turn <;> simp [flipTurn]
      · rw [if_neg hc] at h
        cases h
        exact ⟨⟨fun hne => absurd rfl hne, fun hb => absurd hb.2 hc⟩,
          fun hb => absurd hb.2 hc⟩
  · rw [if_neg he] at h
    cases h
    exact ⟨⟨fun hne => absurd rfl hne, fun hb => absurd hb.1 he⟩,
      fun hb => absurd hb.1 he⟩

theorem finishSequence_noend (s : DrainState) (he : s.endOfSequence = false) :
    finishSequence s = some s := by
  unfold finishSequence
  rw [if_neg (by simp [he])]

/-- A small concrete board view for the scripted C1 scenario: three occupied
slots, gems 1, 2, 3 of types Ruby, Emerald, Sapphire, player to move, a swap
already issued (`TurnState::Resolving`). -/
def c1Start : DrainState where
  slots := [⟨⟨0, 0⟩, some 1⟩, ⟨⟨0, 1⟩, some 2⟩, ⟨⟨1, 0⟩, some 3⟩]
  gems := [(1, GemType.Ruby), (2, GemType.Emerald), (3, GemType.Sapphire)]
  turn := Participant.Player
  turnState := TurnState.Resolving
  endOfSequence := false
  changeTurns := false
  playerRes := ⟨[]⟩
  opponentRes := ⟨[]⟩
  commands := []
  nextEntity := 4

/-- The scripted event sequence Swapped, Dropped, Popped, Spawned. -/
def c1Events : List BoardEvent :=
  [BoardEvent.Swapped ⟨0, 0⟩ ⟨0, 1⟩,
   BoardEvent.Dropped [(⟨0, 0⟩, ⟨1, 0⟩)],
   BoardEvent.Popped ⟨0, 1⟩,
   BoardEvent.Spawned [(⟨0, 1⟩, 0)]]

/-- C1: `Turn` flips to the other participant exactly once per resolved move,
and only at a sequence boundary (set by `Spawned` or `Shuffled`) that follows a
genuine `Swapped`; it never changes after a `FailedSwap` alone and never
mid-cascade. Conjuncts: (1)–(2) no event processed inside the drain loop ever
moves `Turn`; (3) the end-of-tick block moves `Turn` exactly when both the
sequence-ended and change-turns flags are set, flips it once and clears both
flags; (4) only `Spawned`/`Shuffled` leave the sequence-ended flag set;
(5) only `Swapped` raises the change-turns flag; (6) a tick that drains a lone
`FailedSwap` never changes `Turn`; (7) on the scripted sequence Swapped,
Dropped, Popped, Spawned, `Turn` is still the player's after every proper
prefix and after the full loop, and flips to the opponent exactly at the
end-of-tick block after the final `Spawned`. -/
theorem C1 :
    (∀ s ev s2, processEvent s ev = some s2 → s2.turn = s.turn) ∧
    (∀ events s s2, drainLoop s events = some s2 → s2.turn = s.turn) ∧
    (∀ s s2, finishSequence s = some s2 →
      (s2.turn ≠ s.turn ↔ (s.endOfSequence = true ∧ s.changeTurns = true)) ∧
      (s.endOfSequence = true ∧ s.changeTurns = true →
        s2.turn = flipTurn s.turn ∧ s2.changeTurns = false ∧
          s2.endOfSequence = false)) ∧
    (∀ s ev s2, processEvent s ev = some s2 → s2.endOfSequence = true →
      (∃ l, ev = BoardEvent.Spawned l) ∨ ∃ m, ev = BoardEvent.Shuffled m) ∧
    (∀ s ev s2, processEvent s ev = some s2 → s2.changeTurns = true →
      s.changeTurns = true ∨ ∃ a b, ev = BoardEvent.Swapped a b) ∧
    (∀ s a b r, gem_events [] s [BoardEvent.FailedSwap a b] = some r →
      r.1.turn = s.turn) ∧
    ((gem_events [] c1Start c1Events).map (fun r => r.1.turn) =
        some Participant.Opponent ∧
     (drainLoop c1Start (c1Events.take 1)).map DrainState.turn =
        some Participant.Player ∧
     (drainLoop c1Start (c1Events.take 2)).map DrainState.turn =
        some Participant.Player ∧
     (drainLoop c1Start (c1Events.take 3)).map DrainState.turn =
        some Participant.Player ∧
     (drainLoop c1Start c1Events).map DrainState.turn =
        some Participant.Player) := by
  refine ⟨processEvent_turn, drainLoop_turn, finishSequence_turn,
    processEvent_end, processEvent_change, ?_, by decide⟩
  intro s a b r h
  unfold gem_events at h
  rw [if_pos (by rfl)] at h
  split at h
  · cases h
  · rename_i s2 hs2
    split at h
    · cases h
    · rename_i s3 hs3
      cases h
      have hturn : s2.turn = s.turn := drainLoop_turn _ _ _ hs2
      have hproc : processEvent s (BoardEvent.FailedSwap a b) = some s2 := by
        simp only [drainLoop] at hs2
        split at hs2
        · cases hs2
        · rename_i s4 hs4
          simp only [drainLoop, Option.some.injEq] at hs2
          subst hs2
          exact hs4
      have hend : s2.endOfSequence = false := by
        cases hcon : s2.endOfSequence
        · rfl
        · rcases processEvent_end _ _ _ hproc hcon with ⟨l, hl⟩ | ⟨m, hm⟩
          · cases hl
          · cases hm
      rw [finishSequence_noend s2 hend] at hs3
      cases hs3
      exact hturn

/-- Witness for C1 at a concrete input: draining a lone `FailedSwap` from the
concrete scripted start state leaves `Turn` with the player. -/
theorem C1_witness :
    DrainState.turn { c1Start with turnState := TurnState.AwaitingMove } =
      Participant.Player := by
  exact C1.2.2.2.2.2.1 c1Start ⟨0, 0⟩ ⟨0, 1⟩
    ({ c1Start with turnState := TurnState.AwaitingMove }, ([] : List BoardEvent))
    (by decide)

/-- C2 (amended): on any tick where some gem's in-flight animation has a
progress that is **not approximately** 1.0 (`approx_equal`, margin
`f32::EPSILON`), `gem_events` takes no action: it pops no board events and
returns every piece of state unchanged. -/
theorem C2 (animProgress : List ℚ) (s : DrainState) (events : List BoardEvent)
    (p : ℚ) (hp : p ∈ animProgress) (hne : approx_equal p 1 = false) :
    gem_events animProgress s events = some (s, events) := by
  unfold gem_events
  rw [if_neg]
  intro hall
  rw [List.all_eq_true] at hall
  rw [hall p hp] at hne
  cases hne

/-- Counterexample to C2 as stated: the progress value `1 - 2⁻²⁴` is not
exactly 1.0, yet it is within `f32::EPSILON = 2⁻²³` of 1.0 (`approx_equal`
holds), so the drain proceeds: starting from the scripted state with one
queued `Popped` event it pops the whole queue (remaining events `[]`) and
credits one Ruby to the player's ledger. -/
theorem C2_counterexample :
    ((1 : ℚ) - 1 / 2 ^ 24 = 1) = False ∧
    approx_equal ((1 : ℚ) - 1 / 2 ^ 24) 1 = true ∧
    (gem_events [(1 : ℚ) - 1 / 2 ^ 24] c1Start [BoardEvent.Popped ⟨0, 0⟩]).map
        (fun r => r.2) = some [] ∧
    (gem_events [(1 : ℚ) - 1 / 2 ^ 24] c1Start [BoardEvent.Popped ⟨0, 0⟩]).map
        (fun r => (r.1.playerRes).get GemType.Ruby) = some 1 := by
  have happrox : approx_equal ((1 : ℚ) - 1 / 2 ^ 24) 1 = true := by
    simp only [approx_equal, f32Eps, decide_eq_true_eq]
    rw [show (1 : ℚ) - 1 / 2 ^ 24 - 1 = -(1 / 2 ^ 24) by ring, abs_neg,
      abs_of_nonneg (by positivity)]
    norm_num
  have hall :
      List.all [(1 : ℚ) - 1 / 2 ^ 24] (fun p => approx_equal p 1) = true := by
    show approx_equal ((1 : ℚ) - 1 / 2 ^ 24) 1 && true = true
    rw [happrox]
    rfl
  have heval :
      gem_events [(1 : ℚ) - 1 / 2 ^ 24] c1Start [BoardEvent.Popped ⟨0, 0⟩] =
        some
          (⟨[⟨⟨0, 0⟩, none⟩, ⟨⟨0, 1⟩, some 2⟩, ⟨⟨1, 0⟩, some 3⟩],
            [(2, GemType.Emerald), (3, GemType.Sapphire)],
            Participant.Player, TurnState.Resolving, false, false,
            ⟨[(GemType.Ruby, 1)]⟩, ⟨[]⟩, [], 4⟩, []) := by
    unfold gem_events
    rw [hall]
    decide
  refine ⟨?_, happrox, ?_, ?_⟩
  · simp only [eq_iff_iff, iff_false]
    intro hcon
    norm_num at hcon
  · rw [heval]
    rfl
  · rw [heval]
    rfl

/-- Witness for C2 at a concrete input: a gem animation at progress 0 defers
the drain, leaving the state and the queued event list untouched. -/
theorem C2_witness :
    gem_events [(0 : ℚ)] c1Start [BoardEvent.Popped ⟨0, 0⟩] =
      some (c1Start, [BoardEvent.Popped ⟨0, 0⟩]) := by
  have h0 : approx_equal 0 1 = false := by
    simp only [approx_equal, f32Eps, decide_eq_false_iff_not, not_lt]
    rw [show (0 : ℚ) - 1 = -1 by ring, abs_neg, abs_one]
    norm_num
  exact C2 [(0 : ℚ)] c1Start [BoardEvent.Popped ⟨0, 0⟩] 0 (by simp) h0

theorem getSlot_setGemFirst (slots : List GemSlot) (pos : UVec2) (v : Option Entity) :
    getSlot (setGemFirst slots pos v) pos =
      (getSlot slots pos).map (fun sl => { sl with gem := v }) := by
  induction slots with
  | nil => rfl
  | cons sl rest ih =>
    by_cases h : sl.pos = pos
    · have hb : (sl.pos == pos) = true := by simp [h]
      simp [setGemFirst, getSlot, hb]
    · have hb : (sl.pos == pos) = false := by simp [h]
      simp [setGemFirst, getSlot, hb, ih]

/-- C5: crediting the obstacle (Skull) type never changes any ledger
(`Resources::add` returns early), and for a non-Skull gem, processing
`Popped(pos)` credits exactly one unit of the popped gem's type to the ledger
of the participant holding `Turn` (all its other balances and the whole other
participant's ledger unchanged), despawns the gem, and clears the slot. -/
theorem C5 :
    (∀ r : Resources, r.add GemType.Skull = r) ∧
    (∀ (s : DrainState) (pop : UVec2) (slot : GemSlot) (g : Entity) (t : GemType)
        (s2 : DrainState),
      getSlot s.slots pop = some slot → slot.gem = some g →
      alistGet s.gems g = some t → t ≠ GemType.Skull →
      processEvent s (BoardEvent.Popped pop) = some s2 →
      (ledgerOf s2 s.turn).get t = (ledgerOf s s.turn).get t + 1 ∧
      (∀ t2, t2 ≠ t → (ledgerOf s2 s.turn).get t2 = (ledgerOf s s.turn).get t2) ∧
      ledgerOf s2 (flipTurn s.turn) = ledgerOf s (flipTurn s.turn) ∧
      alistGet s2.gems g = none ∧
      getSlot s2.slots pop = some { slot with gem := none }) := by
  constructor
  · intro r
    simp [Resources.add]
  · intro s pop slot g t s2 hslot hgem htyp hskull hproc
    simp only [processEvent, applyEvent] at hproc
    rw [hslot] at hproc
    simp only [] at hproc
    rw [hgem] at hproc
    simp only [] at hproc
    rw [htyp] at hproc
    simp only [] at hproc
    cases hturn : s.turn <;> rw [hturn] at hproc <;> simp only [] at hproc <;>
      cases hproc <;>
      refine ⟨?_, fun t2 ht2 => ?_, rfl, ?_, ?_⟩ <;>
      first
        | exact resources_get_add_self _ t hskull
        | exact resources_get_add_other _ t t2 ht2
        | exact alistGet_filter_out _ g
        | (rw [getSlot_setGemFirst, hslot]; rfl)

/-- The state after `Popped (0,1)` is drained from the scripted start state:
gem 2 (an Emerald) is despawned, its slot cleared, one Emerald credited. -/
def c5End : DrainState where
  slots := [⟨⟨0, 0⟩, some 1⟩, ⟨⟨0, 1⟩, none⟩, ⟨⟨1, 0⟩, some 3⟩]
  gems := [(1, GemType.Ruby), (3, GemType.Sapphire)]
  turn := Participant.Player
  turnState := TurnState.Resolving
  endOfSequence := false
  changeTurns := false
  playerRes := ⟨[(GemType.Emerald, 1)]⟩
  opponentRes := ⟨[]⟩
  commands := []
  nextEntity := 4

/-- Witness for C5 at a concrete input: popping the Emerald at (0,1) credits
the player's Emerald balance from 0 to 1. -/
theorem C5_witness :
    (ledgerOf c5End Participant.Player).get GemType.Emerald =
      (ledgerOf c1Start Participant.Player).get GemType.Emerald + 1 := by
  have h := C5.2 c1Start ⟨0, 1⟩ ⟨⟨0, 1⟩, some 2⟩ 2 GemType.Emerald c5End
    (by decide) (by decide) (by decide) (by decide) (by decide)
  exact h.1

/-- C4 (amended): for every ledger, every **non-Skull** gem type `t` and every
amount `n`, `pay(t, n)` returns `false` and leaves every balance unchanged
when the balance of `t` is below `n`, and returns `true` and decrements the
balance of `t` by exactly `n` (all other balances unchanged) otherwise.
(`pay` on the Skull type hits `unimplemented!` and panics instead.) -/
theorem C4 (r : Resources) (t : GemType) (n : Nat) (hskull : t ≠ GemType.Skull) :
    (r.get t < n → r.pay t n = some (r, false)) ∧
    (n ≤ r.get t →
      ∃ r2, r.pay t n = some (r2, true) ∧ r2.get t = r.get t - n ∧
        ∀ t2, t2 ≠ t → r2.get t2 = r.get t2) := by
  constructor
  · intro hlt
    simp only [Resources.pay]
    rw [if_neg (by simp [hskull]), if_neg (by omega)]
  · intro hle
    refine ⟨⟨alistInsert r.mana t (r.get t - n)⟩, ?_, ?_, ?_⟩
    · simp only [Resources.pay]
      rw [if_neg (by simp [hskull]), if_pos hle]
    · simp [Resources.get, alistGet_insert_self]
    · intro t2 ht2
      simp [Resources.get, alistGet_insert_other _ _ _ _ ht2]

/-- Counterexample to C4 as stated over *every* gem type: paying 0 of the
Skull type does not return at all — `Resources::pay` hits
`unimplemented!("Skulls are not a resource")` and panics (`none`), although
the claim (balance 0 ≤ amount 0) requires it to return `true`. -/
theorem C4_counterexample : Resources.pay ⟨[]⟩ GemType.Skull 0 = none := rfl

/-- Witness for C4 at a concrete input: paying 3 Ruby from a balance of 2
fails and leaves the ledger untouched. -/
theorem C4_witness :
    Resources.pay ⟨[(GemType.Ruby, 2)]⟩ GemType.Ruby 3 =
      some (⟨[(GemType.Ruby, 2)]⟩, false) :=
  (C4 ⟨[(GemType.Ruby, 2)]⟩ GemType.Ruby 3 (by decide)).1 (by decide)

theorem bool_eq_of_iff {a b : Bool} (h : (a = true) ↔ (b = true)) : a = b := by
  cases a <;> cases b <;> simp_all

/-- C8 (amended): for all in-range `u32` positions, `cardinally_adjacent` is
symmetric; but a position is adjacent to **itself** exactly when one of its
coordinates sits at a saturating boundary (0 or `u32::MAX`) — in particular
every slot on the board's `x = 0` or `y = 0` edge is self-adjacent, because
`saturating_sub` maps the unit step back onto the same cell. Only positions
with both coordinates strictly inside `(0, u32::MAX)` are never self-adjacent. -/
theorem C8 :
    (∀ p q : UVec2, p.x ≤ u32max → p.y ≤ u32max → q.x ≤ u32max → q.y ≤ u32max →
      UVec2.cardinally_adjacent p q = UVec2.cardinally_adjacent q p) ∧
    (∀ p : UVec2, p.x ≤ u32max → p.y ≤ u32max →
      (UVec2.cardinally_adjacent p p = true ↔
        (p.x = 0 ∨ p.x = u32max ∨ p.y = 0 ∨ p.y = u32max))) ∧
    (∀ p : UVec2, 0 < p.x → p.x < u32max → 0 < p.y → p.y < u32max →
      UVec2.cardinally_adjacent p p = false) := by
  have selfiff : ∀ p : UVec2, p.x ≤ u32max → p.y ≤ u32max →
      (UVec2.cardinally_adjacent p p = true ↔
        (p.x = 0 ∨ p.x = u32max ∨ p.y = 0 ∨ p.y = u32max)) := by
    intro p hx hy
    obtain ⟨px, py⟩ := p
    simp only [u32max] at *
    simp only [UVec2.cardinally_adjacent, UVec2.left, UVec2.right, UVec2.up,
      UVec2.down, Bool.or_eq_true, beq_iff_eq, UVec2.mk.injEq, u32max]
    simp only [min_def, and_true, true_and]
    split_ifs <;> omega
  refine ⟨?_, selfiff, ?_⟩
  · intro p q hpx hpy hqx hqy
    apply bool_eq_of_iff
    obtain ⟨px, py⟩ := p
    obtain ⟨qx, qy⟩ := q
    simp only [u32max] at *
    simp only [UVec2.cardinally_adjacent, UVec2.left, UVec2.right, UVec2.up,
      UVec2.down, Bool.or_eq_true, beq_iff_eq, UVec2.mk.injEq, u32max]
    simp only [min_def, and_true, true_and]
    split_ifs <;> omega
  · intro p h1 h2 h3 h4
    cases hb : UVec2.cardinally_adjacent p p
    · rfl
    · exfalso
      rcases (selfiff p (le_of_lt h2) (le_of_lt h4)).mp hb with h | h | h | h <;>
        simp only [u32max] at * <;> omega

/-- Counterexample to C8 as stated: the corner position (0,0) *is* cardinally
adjacent to itself, because `(0,0).left` saturates back to (0,0). -/
theorem C8_counterexample :
    UVec2.cardinally_adjacent ⟨0, 0⟩ ⟨0, 0⟩ = true := by decide

/-- Witness for C8 at a concrete input: symmetry at the in-range pair
(2,3), (3,3). -/
theorem C8_witness :
    UVec2.cardinally_adjacent ⟨2, 3⟩ ⟨3, 3⟩ =
      UVec2.cardinally_adjacent ⟨3, 3⟩ ⟨2, 3⟩ :=
  C8.1 ⟨2, 3⟩ ⟨3, 3⟩ (by decide) (by decide) (by decide) (by decide)

theorem getSlot_pos : ∀ (slots : List GemSlot) (pos : UVec2) (sl : GemSlot),
    getSlot slots pos = some sl → sl.pos = pos := by
  intro slots
  induction slots with
  | nil => intro pos sl h; cases h
  | cons s0 rest ih =>
    intro pos sl h
    simp only [getSlot] at h
    split at h
    · rename_i hb
      cases h
      exact eq_of_beq hb
    · exact ih pos sl h

theorem getSlot_shuffle (slots : List GemSlot) (pos : UVec2)
    (nm : List (UVec2 × Option Entity)) :
    getSlot (slots.map (fun sl => { sl with gem := (alistGet nm sl.pos).join })) pos =
      (getSlot slots pos).map (fun sl => { sl with gem := (alistGet nm sl.pos).join }) := by
  induction slots with
  | nil => rfl
  | cons sl rest ih =>
    by_cases h : sl.pos = pos
    · have hb : (sl.pos == pos) = true := by simp [h]
      simp [getSlot, hb]
    · have hb : (sl.pos == pos) = false := by simp [h]
      simpa [getSlot, hb] using ih

theorem buildShuffleMap_skip :
    ∀ (mvs : List (UVec2 × UVec2)) (old : List GemSlot)
      (gems : List (Entity × GemType)) (acc nm : List (UVec2 × Option Entity)),
    buildShuffleMap old gems mvs acc = some nm →
    ∀ k : UVec2, (∀ mv ∈ mvs, mv.2 ≠ k) → alistGet nm k = alistGet acc k := by
  intro mvs
  induction mvs with
  | nil =>
    intro old gems acc nm h k _
    simp only [buildShuffleMap, Option.some.injEq] at h
    subst h
    rfl
  | cons m0 rest ih =>
    intro old gems acc nm h k hk
    have hne : m0.2 ≠ k := hk m0 (List.mem_cons_self m0 rest)
    have hrest : ∀ m2 ∈ rest, m2.2 ≠ k := fun m2 hm2 => hk m2 (List.mem_cons_of_mem m0 hm2)
    simp only [buildShuffleMap] at h
    split at h
    · cases h
    · split at h
      · cases h
      · iterate 3 (all_goals try split at h)
        all_goals try cases h
        all_goals
          exact (ih _ _ _ _ h k hrest).trans (alistGet_insert_other _ _ _ _ (Ne.symm hne))

theorem buildShuffleMap_dest :
    ∀ (mvs : List (UVec2 × UVec2)) (old : List GemSlot)
      (gems : List (Entity × GemType)) (acc nm : List (UVec2 × Option Entity)),
    buildShuffleMap old gems mvs acc = some nm →
    (mvs.map Prod.snd).Nodup →
    ∀ mv ∈ mvs, ∃ from_slot to_slot,
      getSlot old mv.1 = some from_slot ∧ getSlot old mv.2 = some to_slot ∧
      alistGet nm mv.2 = some from_slot.gem := by
  intro mvs
  induction mvs with
  | nil =>
    intro old gems acc nm h hnd mv hmv
    cases hmv
  | cons m0 rest ih =>
    intro old gems acc nm h hnd mv hmv
    simp only [List.map_cons, List.nodup_cons] at hnd
    obtain ⟨hnotin, hndrest⟩ := hnd
    simp only [buildShuffleMap] at h
    split at h
    · cases h
    · rename_i from_slot hfrom
      split at h
      · cases h
      · rename_i to_slot hto
        rcases List.mem_cons.mp hmv with hemv | hmrest
        · subst hemv
          refine ⟨from_slot, to_slot, hfrom, hto, ?_⟩
          have hrest : ∀ m2 ∈ rest, m2.2 ≠ mv.2 := by
            intro m2 hm2 hcon
            exact hnotin (hcon ▸ List.mem_map_of_mem Prod.snd hm2)
          iterate 3 (all_goals try split at h)
          all_goals try cases h
          all_goals
            exact (buildShuffleMap_skip _ _ _ _ _ h mv.2 hrest).trans
              (alistGet_insert_self _ _ _)
        · iterate 3 (all_goals try split at h)
          all_goals try cases h
          all_goals exact ih _ _ _ _ h hndrest mv hmrest

/-- C10 (amended): after the Event Drain processes `Shuffled(moves)` — provided
no two moves share a destination (with duplicate destinations the last
insertion into the `new_slots` HashMap wins) — the slot at each move's `to`
position ends up holding exactly the gem reference the slot at `from` held
before the event, and every slot whose position is not the destination of any
move has its gem reference cleared to `None`. -/
theorem C10 (s : DrainState) (moves : List (UVec2 × UVec2)) (s2 : DrainState)
    (hproc : processEvent s (BoardEvent.Shuffled moves) = some s2)
    (hnd : (moves.map Prod.snd).Nodup) :
    (∀ mv ∈ moves, ∃ from_slot to_slot,
      getSlot s.slots mv.1 = some from_slot ∧
      getSlot s.slots mv.2 = some to_slot ∧
      getSlot s2.slots mv.2 = some { to_slot with gem := from_slot.gem }) ∧
    (∀ pos sl0, (∀ mv ∈ moves, mv.2 ≠ pos) → getSlot s.slots pos = some sl0 →
      getSlot s2.slots pos = some { sl0 with gem := none }) := by
  simp only [processEvent, applyEvent] at hproc
  split at hproc
  · cases hproc
  · rename_i nm hnm
    cases hproc
    constructor
    · intro mv hmv
      obtain ⟨from_slot, to_slot, hfrom, hto, hget⟩ :=
        buildShuffleMap_dest _ _ _ _ _ hnm hnd mv hmv
      refine ⟨from_slot, to_slot, hfrom, hto, ?_⟩
      rw [getSlot_shuffle, hto]
      have hpos : to_slot.pos = mv.2 := getSlot_pos _ _ _ hto
      show (some { to_slot with gem := (alistGet nm to_slot.pos).join } : Option GemSlot) =
        some { to_slot with gem := from_slot.gem }
      rw [hpos, hget]
      rfl
    · intro pos sl0 hnodest hsl0
      rw [getSlot_shuffle, hsl0]
      have hpos : sl0.pos = pos := getSlot_pos _ _ _ hsl0
      have hnone : alistGet nm pos = none :=
        (buildShuffleMap_skip _ _ _ _ _ hnm pos hnodest).trans rfl
      show (some { sl0 with gem := (alistGet nm sl0.pos).join } : Option GemSlot) =
        some { sl0 with gem := none }
      rw [hpos, hnone]
      rfl

/-- Three slots in one column holding gems 1, 2, 3 (Ruby, Emerald, Sapphire);
the start state for the shuffle scenarios. -/
def c10Start : DrainState where
  slots := [⟨⟨0, 0⟩, some 1⟩, ⟨⟨0, 1⟩, some 2⟩, ⟨⟨0, 2⟩, some 3⟩]
  gems := [(1, GemType.Ruby), (2, GemType.Emerald), (3, GemType.Sapphire)]
  turn := Participant.Player
  turnState := TurnState.Resolving
  endOfSequence := false
  changeTurns := false
  playerRes := ⟨[]⟩
  opponentRes := ⟨[]⟩
  commands := []
  nextEntity := 4

/-- Counterexample to C10 as stated for arbitrary move lists: when two moves
share destination (0,2), the later `HashMap::insert` wins — slot (0,2) ends
holding gem 2 (moved from (0,1)), not gem 1 which the pair ((0,0),(0,2)) in
the list demands. -/
theorem C10_counterexample :
    processEvent c10Start (BoardEvent.Shuffled [(⟨0, 0⟩, ⟨0, 2⟩), (⟨0, 1⟩, ⟨0, 2⟩)]) =
      some { c10Start with
        slots := [⟨⟨0, 0⟩, none⟩, ⟨⟨0, 1⟩, none⟩, ⟨⟨0, 2⟩, some 2⟩]
        endOfSequence := true } ∧
    (getSlot [⟨⟨0, 0⟩, none⟩, ⟨⟨0, 1⟩, none⟩, (⟨⟨0, 2⟩, some 2⟩ : GemSlot)] ⟨0, 2⟩).map
        GemSlot.gem = some (some 2) ∧
    ¬((getSlot [⟨⟨0, 0⟩, none⟩, ⟨⟨0, 1⟩, none⟩, (⟨⟨0, 2⟩, some 2⟩ : GemSlot)] ⟨0, 2⟩).map
        GemSlot.gem = some (some 1)) := by decide

/-- Witness for C10 at a concrete input: the duplicate-free shuffle that swaps
the gems of (0,0) and (0,1) leaves the untouched slot (0,2) cleared to None. -/
theorem C10_witness :
    getSlot [⟨⟨0, 0⟩, some 2⟩, ⟨⟨0, 1⟩, some 1⟩, (⟨⟨0, 2⟩, none⟩ : GemSlot)] ⟨0, 2⟩ =
      some ⟨⟨0, 2⟩, none⟩ :=
  (C10 c10Start [(⟨0, 0⟩, ⟨0, 1⟩), (⟨0, 1⟩, ⟨0, 0⟩)]
      { c10Start with
        slots := [⟨⟨0, 0⟩, some 2⟩, ⟨⟨0, 1⟩, some 1⟩, ⟨⟨0, 2⟩, none⟩]
        endOfSequence := true }
      (by decide) (by decide)).2 ⟨0, 2⟩ ⟨⟨0, 2⟩, some 3⟩ (by decide) (by decide)

/-- The toggle-off test in `select`: the previously selected slot's gem is the
very same entity as the hit slot's gem
(`prev.gem.is_some_and(|g| hit.gem.is_some_and(|h| h == g))`). -/
def sameGem (ps hs : GemSlot) : Bool :=
  match ps.gem, hs.gem with
  | some pg, some hg => pg == hg
  | _, _ => false

/-- The input-suppression loop at the top of `select`: some gem with an
`Animator<Transform>` that is *not* the currently selected slot's gem has
progress not approximately 1.0. -/
def selectBlocked (slots : List (Entity × GemSlot)) (selected : Option Entity)
    (gemAnimators : List (Entity × ℚ)) : Bool :=
  gemAnimators.any (fun p =>
    !(match selected with
      | none => false
      | some selE =>
        match alistGet slots selE with
        | none => false
        | some slot => slot.gem == some p.1) &&
    !approx_equal p.2 1)

/-- The state `select` returns: the `SelectedSlot` resource, the `TurnState`
and the board command queue. -/
structure SelectResult where
  selected : Option Entity
  turnState : TurnState
  commands : List BoardCommand
deriving DecidableEq

/-- `fn select` for one tick with a single raycast source. `slots` is the
`Query<&GemSlot>` keyed by entity, `gemAnimators` the animator progress of
each gem, `hit` the entity of `intersect_top`. Early-out when the button was
not just pressed or `TurnState` is `Resolving`; early-out when a non-selected
gem is still animating; then resolve the hit to a slot (clearing the
selection when there is none), toggle off when the same gem is hit again,
push `Swap(prev, hit)` + `Resolving` when a previously selected slot is
cardinally adjacent (always clearing the selection), and otherwise select. -/
def select (clicked : Bool) (turnState : TurnState)
    (slots : List (Entity × GemSlot)) (gemAnimators : List (Entity × ℚ))
    (hit : Option Entity) (selected : Option Entity)
    (commands : List BoardCommand) : SelectResult :=
  if !clicked || turnState == TurnState.Resolving then ⟨selected, turnState, commands⟩
  else if selectBlocked slots selected gemAnimators then ⟨selected, turnState, commands⟩
  else
    match hit.bind (fun h2 => (alistGet slots h2).map (fun sl => (h2, sl))) with
    | none => ⟨none, turnState, commands⟩
    | some (hitE, hitSlot) =>
      match selected.bind (fun se => alistGet slots se) with
      | some prevSlot =>
        if sameGem prevSlot hitSlot then ⟨none, turnState, commands⟩
        else if UVec2.cardinally_adjacent prevSlot.pos hitSlot.pos then
          ⟨none, TurnState.Resolving,
            commands ++ [BoardCommand.Swap prevSlot.pos hitSlot.pos]⟩
        else ⟨none, turnState, commands⟩
      | none => ⟨some hitE, turnState, commands⟩

theorem select_cases (clicked : Bool) (ts : TurnState)
    (slots : List (Entity × GemSlot)) (anims : List (Entity × ℚ))
    (hit sel : Option Entity) (cs : List BoardCommand) :
    (select clicked ts slots anims hit sel cs).commands = cs ∨
    (clicked = true ∧ ts ≠ TurnState.Resolving ∧
      (select clicked ts slots anims hit sel cs).turnState = TurnState.Resolving ∧
      ∃ a b, (select clicked ts slots anims hit sel cs).commands =
        cs ++ [BoardCommand.Swap a b]) := by
  unfold select
  by_cases h1 : (!clicked || ts == TurnState.Resolving) = true
  · rw [if_pos h1]
    left
    rfl
  · rw [if_neg h1]
    have hclick : clicked = true := by
      revert h1
      cases clicked <;> simp
    have hts : ts ≠ TurnState.Resolving := by
      revert h1
      cases ts <;> simp
    by_cases h2 : selectBlocked slots sel anims = true
    · rw [if_pos h2]
      left
      rfl
    · rw [if_neg h2]
      cases hres : hit.bind (fun h2 => (alistGet slots h2).map (fun sl => (h2, sl))) with
      | none =>
        left
        rfl
      | some pr =>
        obtain ⟨hitE, hitSlot⟩ := pr
        cases hprev : sel.bind (fun se => alistGet slots se) with
        | none =>
          left
          rfl
        | some prevSlot =>
          simp only []
          by_cases h3 : sameGem prevSlot hitSlot = true
          · rw [if_pos h3]
            left
            rfl
          · rw [if_neg h3]
            by_cases h4 : UVec2.cardinally_adjacent prevSlot.pos hitSlot.pos = true
            · rw [if_pos h4]
              right
              exact ⟨hclick, hts, rfl, prevSlot.pos, hitSlot.pos, rfl⟩
            · rw [if_neg h4]
              left
              rfl

/-- `enum SkillType`. -/
inductive SkillType
  | Bamboozle
  | Heal
deriving DecidableEq

/-- `struct Skill { typ, source }`. -/
structure Skill where
  typ : SkillType
  source : Entity
deriving DecidableEq

/-- The state the `skills` system works on: the `Query<&mut Resources>` of
skill users, the `TurnState` and the board command queue. -/
structure SkillsState where
  users : List (Entity × Resources)
  turnState : TurnState
  commands : List BoardCommand
deriving DecidableEq

/-- `fn skills` for one queued `Skill` event. Bamboozle: if the source entity
has a `Resources` component, push `Shuffle` and set `Resolving` (the `unwrap`
on `State::set` panics when the state is already `Resolving`). Heal: if the
source exists, call `pay(Amethyst, 3)` discarding the result; the turn state
is left untouched and no board command is pushed. -/
def skills (s : SkillsState) (sk : Skill) : Option SkillsState :=
  match sk.typ with
  | SkillType.Bamboozle =>
    match alistGet s.users sk.source with
    | some _ =>
      match stateSet s.turnState TurnState.Resolving with
      | some ts =>
        some { s with commands := s.commands ++ [BoardCommand.Shuffle], turnState := ts }
      | none => none
    | none => some s
  | SkillType.Heal =>
    match alistGet s.users sk.source with
    | some r =>
      match r.pay GemType.Amethyst 3 with
      | some rp => some { s with users := alistInsert s.users sk.source rp.1 }
      | none => none
    | none => some s

/-- From `left_sidebar`: the two skill buttons live in a panel that is enabled
only while it is the player's turn and `TurnState` is `AwaitingMove`
(`ui.set_enabled(**turn == player && state.current() == &AwaitingMove)`), so a
`Skill` event can only be emitted then. -/
def skillButtonsEnabled (turnIsPlayer : Bool) (ts : TurnState) : Bool :=
  turnIsPlayer && ts == TurnState.AwaitingMove

/-- C3 (amended): a `Swap` board command from input handling is issued only
while `TurnState` is `AwaitingMove` and issuing it immediately sets
`Resolving`; the Bamboozle skill's `Shuffle` command likewise is issued only
from `AwaitingMove` and immediately sets `Resolving`; but the Heal skill —
which pushes no board command — leaves `TurnState` unchanged, so it does not
flip to `Resolving`. Skill events themselves can only be emitted while the
panel is enabled, i.e. in `AwaitingMove`. -/
theorem C3 :
    (∀ clicked ts slots anims hit sel cs,
      (select clicked ts slots anims hit sel cs).commands ≠ cs →
      clicked = true ∧ ts = TurnState.AwaitingMove ∧
      (select clicked ts slots anims hit sel cs).turnState = TurnState.Resolving) ∧
    (∀ s sk s2, sk.typ = SkillType.Bamboozle → skills s sk = some s2 →
      s2.commands ≠ s.commands →
      s.turnState = TurnState.AwaitingMove ∧ s2.turnState = TurnState.Resolving) ∧
    (∀ s sk s2, sk.typ = SkillType.Heal → skills s sk = some s2 →
      s2.turnState = s.turnState ∧ s2.commands = s.commands) ∧
    (∀ tp ts, skillButtonsEnabled tp ts = true → ts = TurnState.AwaitingMove) := by
  refine ⟨?_, ?_, ?_, ?_⟩
  · intro clicked ts slots anims hit sel cs h
    rcases select_cases clicked ts slots anims hit sel cs with he | ⟨hc, hts, hres, _⟩
    · exact absurd he h
    · refine ⟨hc, ?_, hres⟩
      cases ts
      · rfl
      · exact absurd rfl hts
  · intro s sk s2 htyp h hcmd
    unfold skills at h
    rw [htyp] at h
    simp only [] at h
    split at h
    · split at h
      · rename_i ts2 hset
        cases h
        unfold stateSet at hset
        by_cases hst : (s.turnState == TurnState.Resolving) = true
        · rw [if_pos hst] at hset
          cases hset
        · rw [if_neg hst] at hset
          cases hset
          constructor
          · revert hst
            cases s.turnState <;> simp
          · rfl
      · cases h
    · cases h
      exact absurd rfl hcmd
  · intro s sk s2 htyp h
    unfold skills at h
    rw [htyp] at h
    simp only [] at h
    split at h
    · split at h
      · cases h
        exact ⟨rfl, rfl⟩
      · cases h
    · cases h
      exact ⟨rfl, rfl⟩
  · intro tp ts h
    revert h
    unfold skillButtonsEnabled
    cases ts <;> cases tp <;> simp

/-- Counterexample to C3 as stated: a Heal skill issued while `AwaitingMove`
(player has exactly the 3 Amethyst it costs) debits the ledger but leaves
`TurnState` at `AwaitingMove` — issuing this skill command does *not* set
`TurnState` to `Resolving`. -/
theorem C3_counterexample :
    skills ⟨[(7, ⟨[(GemType.Amethyst, 3)]⟩)], TurnState.AwaitingMove, []⟩
        ⟨SkillType.Heal, 7⟩ =
      some ⟨[(7, ⟨[(GemType.Amethyst, 0)]⟩)], TurnState.AwaitingMove, []⟩ := by
  decide

/-- Witness for C3 at a concrete input: processing a Bamboozle event from
`AwaitingMove` starts from `AwaitingMove` and ends in `Resolving`. -/
theorem C3_witness :
    SkillsState.turnState ⟨[(7, ⟨[]⟩)], TurnState.AwaitingMove, []⟩ =
        TurnState.AwaitingMove ∧
    SkillsState.turnState
        ⟨[(7, ⟨[]⟩)], TurnState.Resolving, [BoardCommand.Shuffle]⟩ =
        TurnState.Resolving :=
  C3.2.1 ⟨[(7, ⟨[]⟩)], TurnState.AwaitingMove, []⟩ ⟨SkillType.Bamboozle, 7⟩
    ⟨[(7, ⟨[]⟩)], TurnState.Resolving, [BoardCommand.Shuffle]⟩ rfl (by decide)
    (by decide)

/-- C7 (amended): with a slot previously selected and a different slot hit
(one holding a different gem), and input not suppressed: if the two positions
are cardinally adjacent, a `Swap(prev, hit)` command is pushed, `TurnState`
becomes `Resolving` and the selection is cleared; if they are *not* adjacent,
no command is pushed, `TurnState` stays `AwaitingMove`, and the selection is
**cleared to None** — it does not switch to the newly hit slot. -/
theorem C7 (slots : List (Entity × GemSlot)) (anims : List (Entity × ℚ))
    (hitE pe : Entity) (hitSlot ps : GemSlot) (cs : List BoardCommand)
    (hpe : alistGet slots pe = some ps)
    (hhit : alistGet slots hitE = some hitSlot)
    (hblock : selectBlocked slots (some pe) anims = false)
    (hgem : sameGem ps hitSlot = false) :
    (UVec2.cardinally_adjacent ps.pos hitSlot.pos = true →
      select true TurnState.AwaitingMove slots anims (some hitE) (some pe) cs =
        ⟨none, TurnState.Resolving, cs ++ [BoardCommand.Swap ps.pos hitSlot.pos]⟩) ∧
    (UVec2.cardinally_adjacent ps.pos hitSlot.pos = false →
      select true TurnState.AwaitingMove slots anims (some hitE) (some pe) cs =
        ⟨none, TurnState.AwaitingMove, cs⟩) := by
  constructor <;> intro hadj <;>
    simp [select, hblock, hhit, hpe, hgem, hadj]

/-- Counterexample to C7 as stated: slot 10 at (0,0) is selected and the
non-adjacent slot 11 at (5,5) is clicked; no command is pushed and the state
stays `AwaitingMove`, but the selection is cleared to `none` instead of
switching to slot 11. -/
theorem C7_counterexample :
    select true TurnState.AwaitingMove
        [(10, ⟨⟨0, 0⟩, some 1⟩), (11, ⟨⟨5, 5⟩, some 2⟩)] [] (some 11) (some 10) [] =
      ⟨none, TurnState.AwaitingMove, []⟩ ∧
    ¬((select true TurnState.AwaitingMove
        [(10, ⟨⟨0, 0⟩, some 1⟩), (11, ⟨⟨5, 5⟩, some 2⟩)] [] (some 11) (some 10)
        []).selected = some 11) := by
  decide

/-- Witness for C7 at a concrete input: the adjacent click (0,0) → (0,1)
pushes the swap command and resolves. -/
theorem C7_witness :
    select true TurnState.AwaitingMove
        [(10, ⟨⟨0, 0⟩, some 1⟩), (11, ⟨⟨0, 1⟩, some 2⟩)] [] (some 11) (some 10) [] =
      ⟨none, TurnState.Resolving, [BoardCommand.Swap ⟨0, 0⟩ ⟨0, 1⟩]⟩ := by
  have h := (C7 [(10, ⟨⟨0, 0⟩, some 1⟩), (11, ⟨⟨0, 1⟩, some 2⟩)] [] 11 10
    ⟨⟨0, 1⟩, some 2⟩ ⟨⟨0, 0⟩, some 1⟩ []
    (by decide) (by decide) (by decide) (by decide)).1 (by decide)
  exact h

/-- `fn turn_switched`: when the `Turn` resource changed this tick and the
board reports no matching moves, clear every participant's `Resources` and
push one `Shuffle` command; otherwise do nothing. -/
def turn_switched (turnChanged : Bool) (matchingMoves : List (UVec2 × UVec2))
    (ledgers : List Resources) (commands : List BoardCommand) :
    List Resources × List BoardCommand :=
  if turnChanged then
    if matchingMoves.isEmpty then
      (ledgers.map Resources.clear, commands ++ [BoardCommand.Shuffle])
    else (ledgers, commands)
  else (ledgers, commands)

/-- C6: whenever `Turn` changes and the board reports zero legal matching
moves, every participant's ledger is cleared and exactly one `Shuffle`
command is pushed; when the reported move set is non-empty (or the turn did
not change), no ledger is touched and no command is pushed. -/
theorem C6 (mm : List (UVec2 × UVec2)) (ls : List Resources)
    (cs : List BoardCommand) :
    (mm = [] →
      (turn_switched true mm ls cs).2 = cs ++ [BoardCommand.Shuffle] ∧
      ∀ r ∈ (turn_switched true mm ls cs).1, r.mana = []) ∧
    (mm ≠ [] → turn_switched true mm ls cs = (ls, cs)) ∧
    turn_switched false mm ls cs = (ls, cs) := by
  refine ⟨?_, ?_, rfl⟩
  · intro hmm
    subst hmm
    refine ⟨rfl, ?_⟩
    intro r hr
    have hr2 : r ∈ ls.map Resources.clear := hr
    rcases List.mem_map.mp hr2 with ⟨r0, _, hmap⟩
    rw [← hmap]
    rfl
  · intro hmm
    cases mm with
    | nil => exact absurd rfl hmm
    | cons m rest => rfl

/-- Witness for C6 at a concrete input: a stalemate turn change clears the
only ledger (two Rubies gone) and pushes exactly one `Shuffle`. -/
theorem C6_witness :
    (turn_switched true [] [⟨[(GemType.Ruby, 2)]⟩] []).2 = [BoardCommand.Shuffle] :=
  ((C6 [] [⟨[(GemType.Ruby, 2)]⟩] []).1 rfl).1

/-- `fn opponent_ai`: returns untouched unless `Turn` is the opponent's and
`TurnState` is not `Resolving`; then draws a random legal move with
`fastrand::usize(..len)` — which panics on an empty range (`none` here) and
otherwise yields an index below `len`, modelled as `randSeed % len` — and
pushes it as a `Swap`, forcing `Resolving`. -/
def opponent_ai (turnIsOpponent : Bool) (ts : TurnState)
    (matchingMoves : List (UVec2 × UVec2)) (randSeed : Nat)
    (commands : List BoardCommand) : Option (List BoardCommand × TurnState) :=
  if !turnIsOpponent || ts == TurnState.Resolving then some (commands, ts)
  else
    match matchingMoves with
    | [] => none
    | m :: rest =>
      let choice := (m :: rest).get
        ⟨randSeed % (m :: rest).length, Nat.mod_lt _ (Nat.succ_pos rest.length)⟩
      some (commands ++ [BoardCommand.Swap choice.1 choice.2], TurnState.Resolving)

/-- C9 (amended): the opponent AI acts only when `Turn` belongs to the
opponent and `TurnState` is `AwaitingMove`; whenever it acts on a board whose
reported matching-move set is non-empty, it pushes exactly one `Swap` command
whose position pair is an element of that set and then sets `Resolving`; on
an empty move set it panics (`fastrand::usize` over the empty range) instead
of pushing anything. -/
theorem C9 :
    (∀ tio ts mm seed cs, (tio = false ∨ ts = TurnState.Resolving) →
      opponent_ai tio ts mm seed cs = some (cs, ts)) ∧
    (∀ ts mm seed cs, mm ≠ [] → ts ≠ TurnState.Resolving →
      ∃ mv, mv ∈ mm ∧
        opponent_ai true ts mm seed cs =
          some (cs ++ [BoardCommand.Swap mv.1 mv.2], TurnState.Resolving)) ∧
    (∀ tio ts mm seed cs r, opponent_ai tio ts mm seed cs = some r → r.1 ≠ cs →
      tio = true ∧ ts = TurnState.AwaitingMove ∧ r.2 = TurnState.Resolving) := by
  refine ⟨?_, ?_, ?_⟩
  · intro tio ts mm seed cs hangry
    unfold opponent_ai
    rw [if_pos]
    rcases hangry with h | h <;> subst h <;> simp
  · intro ts mm seed cs hmm hts
    cases mm with
    | nil => exact absurd rfl hmm
    | cons m rest =>
      unfold opponent_ai
      rw [if_neg]
      · exact ⟨_, List.get_mem _ _ _, rfl⟩
      · revert hts
        cases ts <;> simp
  · intro tio ts mm seed cs r h hr
    unfold opponent_ai at h
    by_cases h1 : (!tio || ts == TurnState.Resolving) = true
    · rw [if_pos h1] at h
      cases h
      exact absurd rfl hr
    · rw [if_neg h1] at h
      have htio : tio = true := by
        revert h1
        cases tio <;> simp
      have hts : ts = TurnState.AwaitingMove := by
        revert h1
        cases ts <;> simp
      cases mm with
      | nil => cases h
      | cons m rest =>
        simp only [] at h
        cases h
        exact ⟨htio, hts, rfl⟩

/-- Counterexample to C9 as stated for *every* board state: with an empty
matching-move set the AI panics (`fastrand::usize(..0)` on an empty range)
instead of pushing a `Swap` from the (empty) set. -/
theorem C9_counterexample :
    opponent_ai true TurnState.AwaitingMove [] 0 [] = none := rfl

/-- Witness for C9 at a concrete input: with one legal move the AI pushes
exactly that swap and resolves. -/
theorem C9_witness :
    opponent_ai true TurnState.AwaitingMove [(⟨0, 0⟩, ⟨0, 1⟩)] 0 [] =
      some ([BoardCommand.Swap ⟨0, 0⟩ ⟨0, 1⟩], TurnState.Resolving) := by
  obtain ⟨mv, hmem, heq⟩ := C9.2.1 TurnState.AwaitingMove [(⟨0, 0⟩, ⟨0, 1⟩)] 0 []
    (by decide) (by decide)
  have hmv : mv = (⟨0, 0⟩, ⟨0, 1⟩) := List.mem_singleton.mp hmem
  subst hmv
  exact heq
